import Mathlib

/-!
Shallow embedding of the core of `rfho/datasets.py`: the `WindowedData`
windowed-context accessor (with its `pad` helper and interval lookup) and the
`ExampleVisiting` stochastic batch scheduler.  Tables are row-major lists of
integer rows; Python/numpy integer indexing and basic slicing are modelled
explicitly; Python exceptions become an explicit error type.
-/

set_option linter.unusedVariables false

namespace RFHO

/-- Python exception classes raised by the modelled code paths.
`noCoveringInterval` is the `IndexError` raised by `list(self.tree[item])[0]`
on an empty interval query (the failure the design documents call
`OutOfRangeError`); `typeError` covers `TypeError` (the failure the design
documents call `UnsupportedIndexError`, and the `None >= int` comparison);
`valueError` is numpy's "need at least one array to concatenate";
`indexError` is an out-of-bounds element access; `zeroDivisionError` is
`step % 0`. -/
inductive PyErr where
  | noCoveringInterval
  | typeError
  | valueError
  | indexError
  | zeroDivisionError
deriving DecidableEq, Repr

/-- Clamp an integer to a valid bound for Python slicing over a length-`n`
sequence: negative indices count from the end (floored at 0), large indices
are clamped to `n`. -/
def pyIdx (n : Nat) (i : Int) : Nat :=
  if i < 0 then ((n : Int) + i).toNat else min i.toNat n

/-- Python/numpy basic slice `l[a:b]` (step 1). -/
def pySlice {α : Type} (l : List α) (a b : Int) : List α :=
  (l.take (pyIdx l.length b)).drop (pyIdx l.length a)

/-- Python/numpy basic slice with optional bounds, `l[a:b]` where either bound
may be omitted (`slice.indices` semantics with step 1). -/
def pySliceO {α : Type} (l : List α) (a b : Option Int) : List α :=
  let lo := match a with | none => 0 | some i => pyIdx l.length i
  let hi := match b with | none => l.length | some i => pyIdx l.length i
  (l.take hi).drop lo

/-- Python/numpy element access `l[i]`: negative indices count from the end,
out-of-range raises `IndexError`.  `dflt` is only returned under the
in-range guard. -/
def pyGet {α : Type} (l : List α) (dflt : α) (i : Int) : Except PyErr α :=
  let j : Int := if i < 0 then (l.length : Int) + i else i
  if 0 ≤ j ∧ j < (l.length : Int) then .ok (l.getD j.toNat dflt)
  else .error .indexError

/-- The row indices denoted by `range(*slice(a, b).indices(n))` (step 1),
used by `WindowedData.__getitem__` to expand a slice. -/
def sliceIndices (a b : Option Int) (n : Nat) : List Nat :=
  let lo := match a with | none => 0 | some i => pyIdx n i
  let hi := match b with | none => n | some i => pyIdx n i
  List.range' lo (hi - lo)

/-- `def pad(_example, _size): return np.concatenate([_example] * _size)`
(datasets.py line 1061). -/
def pad (ex : List Int) (size : Nat) : List Int :=
  (List.replicate size ex).flatten

/-- The state of a `WindowedData` instance as built by `__init__` (before any
eager processing): the base table `data` (row-major), the raw
`row_sentence_bounds` pairs, and the half-window size. -/
structure WData where
  data : List (List Int)
  bounds : List (Int × Int)
  window : Nat

/-- Whether the interval-tree interval built from bounds pair `e`, namely
`Interval(int(e[0]), int(e[1]) + 1)` (datasets.py line 1079), contains the
point `i` (intervaltree intervals are half-open). -/
def covers (e : Int × Int) (i : Int) : Bool :=
  decide (e.1 ≤ i) && decide (i < e.2 + 1)

/-- `len(self) = self.shape[0]`, the number of rows of the base table
(the shape is fixed at `__init__` from the raw data). -/
def WData.len (wd : WData) : Nat := wd.data.length

/-- `WindowedData.get_context` (datasets.py lines 1113-1127).  The interval
query `list(self.tree[item])[0]` is modelled by the first bounds pair whose
tree interval contains `item` (for the non-overlapping bounds the class is
used with, that interval is unique); an empty query raises.  The fetch
`np.concatenate(self.data[item - w + left_pad : item + w + 1 - right_pad])`
raises `ValueError` when the slice has no rows, and `self.data[item]` inside
`pad` is evaluated only under the corresponding `if left_pad:` /
`if right_pad:` guard, as in the source. -/
def WData.getContext (wd : WData) (item : Int) : Except PyErr (List Int) :=
  match wd.bounds.find? (fun e => covers e item) with
  | none => .error .noCoveringInterval
  | some e =>
    let left := e.1
    let right := e.2 + 1
    let w : Int := wd.window
    let n : Int := wd.len
    let leftPad : Nat := (max (w + left - item) 0).toNat
    let rightPad : Nat := (max 0 (w - min right (n - 1) + item)).toNat
    let fetched := pySlice wd.data (item - w + leftPad) (item + w + 1 - rightPad)
    if fetched.isEmpty then .error .valueError
    else do
      let base := fetched.flatten
      let base1 ←
        if 0 < leftPad then do
          let row ← pyGet wd.data [] item
          pure (pad row leftPad ++ base)
        else pure base
      let base2 ←
        if 0 < rightPad then do
          let row ← pyGet wd.data [] item
          pure (base1 ++ pad row rightPad)
        else pure base1
      pure base2

/-- Indexing expressions that reach `WindowedData.__getitem__`: a plain
integer, a slice (step 1, optional bounds), an explicit sequence of row
indices, or a tuple of sub-indices. -/
inductive Item where
  | int (i : Int)
  | slice (a b : Option Int)
  | list (idxs : List Int)
  | tup (items : List Item)

/-- Values produced by indexing: a scalar entry, a 1-D vector, or a 2-D
matrix. -/
inductive PyVal where
  | scalar (x : Int)
  | vec (v : List Int)
  | mat (m : List (List Int))
deriving DecidableEq, Repr

/-- The list comprehension `[f(r) for r in rows]`: evaluates in order,
propagating the first raised exception. -/
def comprehend (f : Int → Except PyErr (List Int)) : List Int → Except PyErr (List (List Int))
  | [] => .ok []
  | r :: rs => do
    let v ← f r
    let m ← comprehend f rs
    .ok (v :: m)

/-- `np.vstack([f(r) for r in rows])`: the comprehension followed by
stacking, which raises `ValueError` when there are no rows. -/
def vstack (f : Int → Except PyErr (List Int)) (rows : List Int) :
    Except PyErr (List (List Int)) := do
  let m ← comprehend f rows
  if m.isEmpty then .error .valueError else .ok m

/-- Numpy column selection `m[:, cols]` after a row stack, for the column
index shapes `WindowedData.__getitem__` can produce: an integer column or a
column slice.  Other column-index shapes are not exercised by the class's
callers and are conservatively mapped to `IndexError`. -/
def colSelect (m : List (List Int)) : Item → Except PyErr PyVal
  | .int c => (m.mapM (fun row => pyGet row 0 c)).map PyVal.vec
  | .slice a b => .ok (.mat (m.map (fun row => pySliceO row a b)))
  | _ => .error .indexError

/-- The non-materialized path of `WindowedData.__getitem__` (datasets.py
lines 1092-1108): an `int` yields `get_context`; a 2-tuple of ints yields one
entry of a context row; a tuple of any other length raises
`TypeError('NOT IMPLEMENTED <|>')`; a 2-tuple whose row part is a slice or
sequence stacks contexts and column-selects (a non-iterable row part raises
`TypeError`; nested tuple row indices are not modelled); a slice or sequence
stacks contexts. -/
def getItemLazy (wd : WData) : Item → Except PyErr PyVal
  | .int i => (wd.getContext i).map PyVal.vec
  | .tup items =>
    match items with
    | [rows, cols] =>
      match rows, cols with
      | .int r, .int c => do
        let v ← wd.getContext r
        let x ← pyGet v 0 c
        .ok (.scalar x)
      | rows, cols => do
        let rowIdxs ←
          match rows with
          | .slice a b => Except.ok ((sliceIndices a b wd.data.length).map Int.ofNat)
          | .list idxs => Except.ok idxs
          | _ => Except.error PyErr.typeError
        let m ← vstack wd.getContext rowIdxs
        colSelect m cols
    | _ => .error .typeError
  | .slice a b =>
    (vstack wd.getContext ((sliceIndices a b wd.data.length).map Int.ofNat)).map .mat
  | .list idxs => (vstack wd.getContext idxs).map .mat

/-- Numpy indexing `m[item]` on the stored (already windowed) matrix, used by
the materialized path of `__getitem__`.  Patterns not exercised on the
materialized table (including tuples of length other than 2, which numpy
rejects for a 2-D array) are conservatively mapped to `IndexError`. -/
def npIndex (m : List (List Int)) : Item → Except PyErr PyVal
  | .int i => (pyGet m [] i).map .vec
  | .slice a b => .ok (.mat (pySliceO m a b))
  | .list idxs => (idxs.mapM (fun i => pyGet m [] i)).map .mat
  | .tup items =>
    match items with
    | [.int r, .int c] => do
      let row ← pyGet m [] r
      let x ← pyGet row 0 c
      .ok (.scalar x)
    | [.int r, .slice a b] => (pyGet m [] r).map (fun row => .vec (pySliceO row a b))
    | [.slice a b, cols] => colSelect (pySliceO m a b) cols
    | _ => .error .indexError

/-- `WindowedData.generate_all`, i.e. `self[:]`, as it runs during
`__init__` with `process_all=True`: at that point the `process_all`
attribute is not yet set (the `hasattr` check in `__getitem__` fails), so
the slice takes the lazy path over the base table's row count. -/
def WData.generateAll (wd : WData) : Except PyErr (List (List Int)) :=
  vstack wd.getContext ((sliceIndices none none wd.data.length).map Int.ofNat)

/-- `WindowedData.__getitem__` (datasets.py lines 1089-1108): when the
instance was built with `process_all=True`, `processed` holds the
eagerly-windowed matrix stored into `self.data`, and indexing is plain numpy
indexing of it; otherwise the lazy path runs. -/
def getItem (wd : WData) (processed : Option (List (List Int))) (item : Item) :
    Except PyErr PyVal :=
  match processed with
  | some m => npIndex m item
  | none => getItemLazy wd item

/-!  The `ExampleVisiting` scheduler (datasets.py lines 964-1058).  -/

/-- The fields of an `ExampleVisiting` instance fixed at construction: the
dataset's data and target tables, the batch size and the optional epoch
count.  `dataset.num_examples` is `data.shape[0]` and the `Dataset`
constructor asserts the target has as many rows. -/
structure EV where
  data : List (List Int)
  target : List (List Int)
  batchSize : Nat
  epochs : Option Nat

/-- `dataset.num_examples = data.shape[0]`. -/
def EV.numExamples (ev : EV) : Nat := ev.data.length

/-- `int(np.ceil(a / b))` for natural `a` and positive `b`. -/
def ceilDiv (a b : Nat) : Nat := (a + b - 1) / b

/-- Python truthiness of the `epochs` field (`None` and `0` are falsy). -/
def truthy : Option Nat → Bool
  | some e => e != 0
  | none => false

/-- `self.T = int(np.ceil(dataset.num_examples / batch_size)); if
self.epochs: self.T *= self.epochs` (datasets.py lines 980-981). -/
def EV.T (ev : EV) : Nat :=
  let t := ceilDiv ev.numExamples ev.batchSize
  if truthy ev.epochs then t * (ev.epochs.getD 1) else t

/-- `self.epochs or 1`. -/
def epochsOr1 : Option Nat → Nat
  | some e => if e = 0 then 1 else e
  | none => 1

/-- The mutable scheduler state: `self.training_schedule` (None until first
generated) together with a counter of how many `np.random.shuffle` outcomes
have been consumed so far, which positions the instance in the stream of
shuffle results. -/
structure EVSched where
  schedule : Option (List Nat)
  shuffleCount : Nat
deriving DecidableEq, Repr

/-- `ExampleVisiting.generate_visiting_scheme` (datasets.py lines 993-1008):
stores the concatenation of `self.epochs or 1` successive outcomes of
`all_indices_shuffled()`.  The ambient randomness is modelled by the stream
`shuffles`: the `k`-th shuffle call overall returns `shuffles k`. -/
def generateScheme (ev : EV) (shuffles : Nat → List Nat) (st : EVSched) : EVSched :=
  let k := epochsOr1 ev.epochs
  { schedule := some (((List.range k).map (fun j => shuffles (st.shuffleCount + j))).flatten),
    shuffleCount := st.shuffleCount + k }

/-- What one call of the training supplier returns (besides the feed-dict
plumbing that is irrelevant here): the selected schedule positions `nb`, the
data rows `bX = dataset.data[nb, :]`, the target rows
`bY = dataset.target[nb, :]`, and whether the wraparound warning was
printed on this call. -/
structure Batch where
  nb : List Nat
  bX : List (List Int)
  bY : List (List Int)
  warned : Bool
deriving DecidableEq, Repr

/-- Numpy integer-array row indexing `tbl[nb, :]`: gathers the rows in
order, raising `IndexError` on an out-of-range entry. -/
def fetchRows (tbl : List (List Int)) : List Nat → Except PyErr (List (List Int))
  | [] => .ok []
  | i :: is => do
    let r ← if i < tbl.length then Except.ok (tbl.getD i []) else Except.error PyErr.indexError
    let rest ← fetchRows tbl is
    .ok (r :: rest)

/-- The tail of `_training_supplier` after wraparound handling (datasets.py
lines 1042-1056): ensure a schedule exists, slice out
`schedule[step*batch_size : min((step+1)*batch_size, len(schedule))]` and
fetch the corresponding data and target rows.  After the ensure step the
schedule is always present, so the `getD` default is never returned.
`warned` records whether the wraparound warning was printed earlier in the
call. -/
def supplierCore (ev : EV) (shuffles : Nat → List Nat) (st : EVSched)
    (warned : Bool) (s : Int) : Except PyErr (EVSched × Batch) :=
  let st1 := if st.schedule.isNone then generateScheme ev shuffles st else st
  let sch := st1.schedule.getD []
  let nb := pySlice sch (s * ev.batchSize) (min ((s + 1) * ev.batchSize) (sch.length : Int))
  do
    let bX ← fetchRows ev.data nb
    let bY ← fetchRows ev.target nb
    .ok (st1, ⟨nb, bX, bY, warned⟩)

/-- `_training_supplier(step=None)` (datasets.py lines 1031-1056).  Calling
with `step=None` evaluates `None >= self.T`, which raises `TypeError` before
anything else happens.  For an integer step at or past `self.T`: the warning
prints exactly when `step % self.T == 0` and `self.epochs` is truthy, the
schedule is regenerated whenever `step % self.T == 0`, and the step is
reduced modulo `self.T` (`step % 0` raises `ZeroDivisionError`). -/
def trainingSupplier (ev : EV) (shuffles : Nat → List Nat) (st : EVSched)
    (step : Option Int) : Except PyErr (EVSched × Batch) :=
  match step with
  | none => .error .typeError
  | some s =>
    if (ev.T : Int) ≤ s then
      if ev.T = 0 then .error .zeroDivisionError
      else
        let r := s % (ev.T : Int)
        let regen := r == 0
        let warned := regen && truthy ev.epochs
        let st1 := if regen then generateScheme ev shuffles st else st
        supplierCore ev shuffles st1 warned r
    else
      supplierCore ev shuffles st false s

/-! Definitions modelled from the specification's words, for comparison with
the code-derived `WData.getContext`. -/

/-- Modelled from the spec: `segment_of(i)` returns the half-open segment
`[start, end)` enclosing row `i`.  In terms of the raw bounds pair
`(b0, b1)` the covering interval-tree interval is `[b0, b1 + 1)`. -/
def segmentOf (wd : WData) (i : Int) : Option (Int × Int) :=
  (wd.bounds.find? (fun e => covers e i)).map (fun e => (e.1, e.2 + 1))

/-- Modelled from the spec's `get_row` formula: `left_pad = max(0, w + start - i)`,
`right_pad = max(0, w - min(end-1, n-1) + i)`, physical rows
`[i-w+left_pad, i+w+1-right_pad)`, result = `left_pad` copies of row `i` ++
fetched rows ++ `right_pad` copies of row `i`, flattened. -/
def specGetRow (wd : WData) (i : Int) : Option (List Int) :=
  (segmentOf wd i).map (fun se =>
    let start := se.1
    let stop := se.2
    let w : Int := wd.window
    let n : Int := wd.data.length
    let lp := (max 0 (w + start - i)).toNat
    let rp := (max 0 (w - min (stop - 1) (n - 1) + i)).toNat
    let rowI := wd.data.getD i.toNat []
    pad rowI lp ++ (pySlice wd.data (i - w + lp) (i + w + 1 - rp)).flatten ++ pad rowI rp)

/-- The spec's `get_row` formula amended to what the code computes: the only
change is `right_pad = max(0, w - min(end, n-1) + i)` in place of
`max(0, w - min(end-1, n-1) + i)`, `end` being the half-open segment end. -/
def specGetRowAmended (wd : WData) (i : Int) : Option (List Int) :=
  (segmentOf wd i).map (fun se =>
    let start := se.1
    let stop := se.2
    let w : Int := wd.window
    let n : Int := wd.data.length
    let lp := (max 0 (w + start - i)).toNat
    let rp := (max 0 (w - min stop (n - 1) + i)).toNat
    let rowI := wd.data.getD i.toNat []
    pad rowI lp ++ (pySlice wd.data (i - w + lp) (i + w + 1 - rp)).flatten ++ pad rowI rp)

/-- Modelled from the spec (§3, WindowedRow): the window clipped to the
segment with zero-filled rows substituted outside it — the pad blocks are
zero rows of the feature width instead of copies of row `i`. -/
def specGetRowZero (wd : WData) (i : Int) : Option (List Int) :=
  (segmentOf wd i).map (fun se =>
    let start := se.1
    let stop := se.2
    let w : Int := wd.window
    let n : Int := wd.data.length
    let lp := (max 0 (w + start - i)).toNat
    let rp := (max 0 (w - min stop (n - 1) + i)).toNat
    let zeroRow : List Int := List.replicate (wd.data.getD i.toNat []).length 0
    pad zeroRow lp ++ (pySlice wd.data (i - w + lp) (i + w + 1 - rp)).flatten ++ pad zeroRow rp)

/-! Concrete instances for the spec's worked scenario
(`num_examples=10, batch_size=3, epochs=2`). -/

/-- A ten-example dataset with `batch_size = 3` and `epochs = 2`. -/
def evA : EV :=
  ⟨(List.range 10).map (fun k => [(k : Int)]),
   (List.range 10).map (fun k => [(k : Int)]), 3, some 2⟩

/-- A shuffle stream whose every outcome is the identity permutation of
`[0, 10)`. -/
def shufA : Nat → List Nat := fun _ => List.range 10

/-- The schedule `generate_visiting_scheme` produces for `evA` under
`shufA`: two concatenated passes over `[0, 10)`. -/
def schedA : List Nat := [0, 1, 2, 3, 4, 5, 6, 7, 8, 9, 0, 1, 2, 3, 4, 5, 6, 7, 8, 9]

/-! Supporting lemmas. -/

theorem okBind {ε α β : Type} (a : α) (f : α → Except ε β) :
    (Except.ok a >>= f) = f a := rfl

theorem errBind {ε α β : Type} (er : ε) (f : α → Except ε β) :
    ((Except.error er : Except ε α) >>= f) = .error er := rfl

theorem pyGet_in {α : Type} (l : List α) (d : α) (i : Int)
    (h0 : 0 ≤ i) (h1 : i < (l.length : Int)) :
    pyGet l d i = .ok (l.getD i.toNat d) := by
  have hni : ¬ i < 0 := by omega
  simp only [pyGet, hni, if_false]
  rw [if_pos ⟨h0, h1⟩]

theorem pySlice_isEmpty_false {α : Type} (l : List α) (a b : Int)
    (h0 : 0 ≤ a) (hab : a < b) (hn : a < (l.length : Int)) :
    (pySlice l a b).isEmpty = false := by
  have hbn : ¬ b < 0 := by omega
  have han : ¬ a < 0 := by omega
  have hlen : 0 < (pySlice l a b).length := by
    simp only [pySlice, pyIdx, han, hbn, if_false, List.length_drop, List.length_take]
    omega
  cases hq : pySlice l a b with
  | nil => rw [hq] at hlen; simp at hlen
  | cons x xs => rfl

/-- The closed form of `WindowedData.get_context` on a covered in-table row:
`left_pad` copies of row `i`, then the fetched physical rows flattened, then
`right_pad` copies of row `i`, with the pads as the code computes them. -/
theorem getContext_closed (wd : WData) (i : Int) (e : Int × Int)
    (hfind : wd.bounds.find? (fun e => covers e i) = some e)
    (hb0 : 0 ≤ e.1) (hin : i < (wd.data.length : Int)) :
    wd.getContext i = .ok
      (pad (wd.data.getD i.toNat []) (max ((wd.window : Int) + e.1 - i) 0).toNat ++
        (pySlice wd.data
            (i - (wd.window : Int) + ((max ((wd.window : Int) + e.1 - i) 0).toNat : Int))
            (i + (wd.window : Int) + 1 -
              ((max 0 ((wd.window : Int) - min (e.2 + 1) ((wd.data.length : Int) - 1) + i)).toNat : Int))).flatten ++
        pad (wd.data.getD i.toNat []) (max 0 ((wd.window : Int) - min (e.2 + 1) ((wd.data.length : Int) - 1) + i)).toNat) := by
  have hcov := List.find?_some hfind
  simp only [covers, Bool.and_eq_true, decide_eq_true_eq] at hcov
  obtain ⟨hle, hlt⟩ := hcov
  have h0i : 0 ≤ i := le_trans hb0 hle
  have hrow := pyGet_in wd.data [] i h0i hin
  have hne : (pySlice wd.data
      (i - (wd.window : Int) + ((max ((wd.window : Int) + e.1 - i) 0).toNat : Int))
      (i + (wd.window : Int) + 1 -
        ((max 0 ((wd.window : Int) - min (e.2 + 1) ((wd.data.length : Int) - 1) + i)).toNat : Int))).isEmpty = false := by
    apply pySlice_isEmpty_false <;> omega
  simp only [WData.getContext, hfind, WData.len, hne, Bool.false_eq_true, if_false]
  set LP : Nat := (max ((wd.window : Int) + e.1 - i) 0).toNat with hLP
  set RP : Nat :=
    (max 0 ((wd.window : Int) - min (e.2 + 1) ((wd.data.length : Int) - 1) + i)).toNat with hRP
  have hpure : ∀ l : List Int, (pure l : Except PyErr (List Int)) = .ok l := fun _ => rfl
  rcases Nat.eq_zero_or_pos LP with hlp | hlp <;>
    rcases Nat.eq_zero_or_pos RP with hrp | hrp <;>
    simp [hlp, hrp, hrow, okBind, hpure, pad]

theorem comprehend_length (f : Int → Except PyErr (List Int)) :
    ∀ (l : List Int) (m : List (List Int)), comprehend f l = .ok m → m.length = l.length
  | [], m, h => by
    simp only [comprehend] at h
    cases h
    rfl
  | r :: rs, m, h => by
    simp only [comprehend] at h
    cases hf : f r with
    | error er => rw [hf, errBind] at h; cases h
    | ok v =>
      rw [hf, okBind] at h
      cases hc : comprehend f rs with
      | error er => rw [hc, errBind] at h; cases h
      | ok m2 =>
        rw [hc, okBind] at h
        cases h
        simp [comprehend_length f rs m2 hc]

theorem comprehend_getD (f : Int → Except PyErr (List Int)) :
    ∀ (l : List Int) (m : List (List Int)), comprehend f l = .ok m →
      ∀ k, k < l.length → f (l.getD k 0) = .ok (m.getD k [])
  | [], m, h, k, hk => absurd hk (by simp)
  | r :: rs, m, h, k, hk => by
    simp only [comprehend] at h
    cases hf : f r with
    | error er => rw [hf, errBind] at h; cases h
    | ok v =>
      rw [hf, okBind] at h
      cases hc : comprehend f rs with
      | error er => rw [hc, errBind] at h; cases h
      | ok m2 =>
        rw [hc, okBind] at h
        cases h
        cases k with
        | zero => simpa using hf
        | succ k =>
          have := comprehend_getD f rs m2 hc k (by simpa using hk)
          simpa using this

theorem fetchRows_ok (tbl : List (List Int)) :
    ∀ nb : List Nat, (∀ i ∈ nb, i < tbl.length) →
      fetchRows tbl nb = .ok (nb.map (fun i => tbl.getD i []))
  | [], _ => rfl
  | i :: is, h => by
    have hi : i < tbl.length := h i (by simp)
    have hrec := fetchRows_ok tbl is (fun j hj => h j (by simp [hj]))
    simp only [fetchRows, hi, if_true, okBind, hrec]
    rfl

theorem mem_pySlice {α : Type} {x : α} {l : List α} {a b : Int}
    (h : x ∈ pySlice l a b) : x ∈ l :=
  List.mem_of_mem_take (List.mem_of_mem_drop h)

theorem generateScheme_schedule (ev : EV) (shuffles : Nat → List Nat) (st : EVSched) :
    (generateScheme ev shuffles st).schedule =
      some (((List.range (epochsOr1 ev.epochs)).map
        (fun j => shuffles (st.shuffleCount + j))).flatten) := rfl

theorem generateScheme_entries (ev : EV) (shuffles : Nat → List Nat) (st : EVSched)
    (hperm : ∀ k, (shuffles k).Perm (List.range ev.numExamples)) :
    ∀ sch, (generateScheme ev shuffles st).schedule = some sch →
      ∀ i ∈ sch, i < ev.numExamples := by
  intro sch hs i hi
  rw [generateScheme_schedule] at hs
  cases hs
  rcases List.mem_flatten.mp hi with ⟨l, hl, hil⟩
  rcases List.mem_map.mp hl with ⟨j, _, rfl⟩
  have := (hperm (st.shuffleCount + j)).mem_iff.mp hil
  exact List.mem_range.mp this

theorem T_pos (ev : EV) (hn : 0 < ev.numExamples) (hb : 0 < ev.batchSize) :
    0 < ev.T := by
  have ht : 0 < ceilDiv ev.numExamples ev.batchSize := by
    unfold ceilDiv
    exact Nat.div_pos (by omega) hb
  unfold EV.T
  cases he : ev.epochs with
  | none => simpa [truthy] using ht
  | some e =>
    by_cases he0 : e = 0
    · simpa [truthy, he0] using ht
    · simp [truthy, he0]
      exact ⟨ht, Nat.pos_of_ne_zero he0⟩

/-- The tail of `_training_supplier` succeeds on a well-formed state and
returns, besides the ensured state, exactly the schedule slice
`schedule[s*batch_size : min((s+1)*batch_size, len(schedule))]` and the rows
of data and target at those positions; the warning flag is passed through
unchanged. -/
theorem supplierCore_ok (ev : EV) (shuffles : Nat → List Nat) (st : EVSched) (s : Int)
    (hperm : ∀ k, (shuffles k).Perm (List.range ev.numExamples))
    (hsched : ∀ sch, st.schedule = some sch → ∀ i ∈ sch, i < ev.numExamples)
    (htar : ev.target.length = ev.data.length) :
    ∃ st1 sch nb,
      st1 = (if st.schedule.isNone then generateScheme ev shuffles st else st) ∧
      st1.schedule = some sch ∧
      nb = pySlice sch (s * ev.batchSize) (min ((s + 1) * ev.batchSize) (sch.length : Int)) ∧
      ∀ w, supplierCore ev shuffles st w s =
        .ok (st1, ⟨nb, nb.map (fun i => ev.data.getD i []),
          nb.map (fun i => ev.target.getD i []), w⟩) := by
  have hst1 : ∀ sch, (if st.schedule.isNone then generateScheme ev shuffles st
      else st).schedule = some sch → ∀ i ∈ sch, i < ev.numExamples := by
    cases hq : st.schedule with
    | none => simpa [hq] using generateScheme_entries ev shuffles st hperm
    | some sch0 => simpa [hq] using hsched
  set st1 := (if st.schedule.isNone then generateScheme ev shuffles st else st) with hd
  have hsome : ∃ sch, st1.schedule = some sch := by
    cases hq : st.schedule with
    | none =>
      exact ⟨((List.range (epochsOr1 ev.epochs)).map
        (fun j => shuffles (st.shuffleCount + j))).flatten,
        by simp [hd, hq, generateScheme_schedule]⟩
    | some sch0 => exact ⟨sch0, by simp [hd, hq]⟩
  rcases hsome with ⟨sch, hsch⟩
  set nb := pySlice sch (s * ev.batchSize) (min ((s + 1) * ev.batchSize) (sch.length : Int))
    with hnb
  have hnbe : ∀ i ∈ nb, i < ev.numExamples := fun i hi =>
    hst1 sch hsch i (mem_pySlice hi)
  have hfx : fetchRows ev.data nb = .ok (nb.map (fun i => ev.data.getD i [])) :=
    fetchRows_ok ev.data nb (fun i hi => hnbe i hi)
  have hfy : fetchRows ev.target nb = .ok (nb.map (fun i => ev.target.getD i [])) :=
    fetchRows_ok ev.target nb (fun i hi => by rw [htar]; exact hnbe i hi)
  refine ⟨st1, sch, nb, rfl, hsch, rfl, fun w => ?_⟩
  simp only [supplierCore, ← hd, hsch, Option.getD_some, ← hnb, hfx, okBind, hfy]

/-! Claim theorems. -/

/-- C8: for every row index with no covering segment in the boundary list,
`get_context` fails immediately with the no-covering-segment error (the
failure the design calls `OutOfRangeError`): the interval query
`list(self.tree[item])[0]` raises before anything else runs, and
`get_context` reads but never writes the accessor's state. -/
theorem claim_C8 (wd : WData) (i : Int)
    (h : ∀ e ∈ wd.bounds, ¬ (e.1 ≤ i ∧ i < e.2 + 1)) :
    wd.getContext i = .error .noCoveringInterval := by
  have hf : wd.bounds.find? (fun e => covers e i) = none := by
    apply List.find?_eq_none.mpr
    intro e he
    simp only [covers, Bool.and_eq_true, decide_eq_true_eq]
    exact fun hc => h e he ⟨hc.1, hc.2⟩
  simp [WData.getContext, hf]

/-- C8 witness: a two-row table whose single segment covers rows 0..1 fails
on row index 5. -/
theorem claim_C8_witness :
    (∀ e ∈ ([((0 : Int), (1 : Int))] : List (Int × Int)), ¬ (e.1 ≤ 5 ∧ (5 : Int) < e.2 + 1)) ∧
      (⟨[[1], [2]], [(0, 1)], 1⟩ : WData).getContext 5 = .error .noCoveringInterval :=
  ⟨by decide, claim_C8 ⟨[[1], [2]], [(0, 1)], 1⟩ 5 (by decide)⟩

/-- C9: indexing a non-materialized `WindowedData` with a tuple whose length
is not 2 raises `TypeError('NOT IMPLEMENTED <|>')` (the failure the design
calls `UnsupportedIndexError`), surfaced immediately. -/
theorem claim_C9 (wd : WData) (items : List Item) (h : items.length ≠ 2) :
    getItemLazy wd (.tup items) = .error .typeError := by
  match items with
  | [] => rfl
  | [a] => rfl
  | [a, b] => exact absurd rfl h
  | a :: b :: c :: t => rfl

/-- C9 witness: a 3-dimensional tuple index fails with the `TypeError`. -/
theorem claim_C9_witness :
    ([Item.int 0, Item.int 0, Item.int 0].length ≠ 2) ∧
      getItemLazy ⟨[[1]], [(0, 0)], 1⟩ (.tup [Item.int 0, Item.int 0, Item.int 0]) =
        .error .typeError :=
  ⟨by decide, claim_C9 ⟨[[1]], [(0, 0)], 1⟩ _ (by decide)⟩

/-- C10: calling the training supplier with its default argument
(`step=None`) raises `TypeError` from evaluating `None >= self.T`, before
any batch is produced and before any state is modified; only integer steps
are usable. -/
theorem claim_C10 (ev : EV) (shuffles : Nat → List Nat) (st : EVSched) :
    trainingSupplier ev shuffles st none = .error .typeError := rfl

/-- C1 counterexample: a four-row table with segments `[0,2)` and `[2,4)`
(bounds pairs `(0,1)` and `(2,3)`) and half-window 1.  Row 1 is covered by
the first segment, yet `get_context(1)` returns rows 0, 1, 2 — it fetches
row 2 from the next segment — while the spec formula
(`right_pad = max(0, w - min(end-1, n-1) + i)`) yields rows 0, 1, 1. -/
theorem claim_C1_counterexample :
    covers ((0 : Int), (1 : Int)) 1 = true ∧
      (⟨[[0], [10], [20], [30]], [(0, 1), (2, 3)], 1⟩ : WData).getContext 1 =
        .ok [0, 10, 20] ∧
      specGetRow ⟨[[0], [10], [20], [30]], [(0, 1), (2, 3)], 1⟩ 1 = some [0, 10, 10] ∧
      ([0, 10, 20] : List Int) ≠ [0, 10, 10] :=
  ⟨rfl, rfl, rfl, by decide⟩

/-- C1 (amended): for every row `i` of the table covered by a segment (with
nonnegative bounds), `get_context(i)` matches the spec's `get_row` formula
with the single change `right_pad = max(0, w - min(end, n-1) + i)` in place
of `max(0, w - min(end-1, n-1) + i)`, `(start, end)` being the half-open
covering segment: `left_pad` copies of row `i`, the physical rows
`[i-w+left_pad, i+w+1-right_pad)` flattened, then `right_pad` copies of
row `i`. -/
theorem claim_C1 (wd : WData) (i : Int)
    (hb : ∀ e ∈ wd.bounds, 0 ≤ e.1)
    (hin : i < (wd.data.length : Int)) :
    (wd.getContext i).toOption = specGetRowAmended wd i := by
  cases hf : wd.bounds.find? (fun e => covers e i) with
  | none =>
    simp [WData.getContext, specGetRowAmended, segmentOf, hf, Except.toOption]
  | some e =>
    have hb0 : 0 ≤ e.1 := hb e (List.mem_of_find?_eq_some hf)
    rw [getContext_closed wd i e hf hb0 hin]
    simp only [specGetRowAmended, segmentOf, hf, Option.map_some, Except.toOption]
    rw [max_comm ((wd.window : Int) + e.1 - i) 0]
    simp [add_sub_cancel_right]

/-- C1 witness: the amended formula agrees with `get_context` on a concrete
covered row. -/
theorem claim_C1_witness :
    (∀ e ∈ ([((0 : Int), (1 : Int)), (2, 3)] : List (Int × Int)), 0 ≤ e.1) ∧
      ((1 : Int) < ((⟨[[0], [10], [20], [30]], [(0, 1), (2, 3)], 1⟩ : WData).data.length : Int)) ∧
      ((⟨[[0], [10], [20], [30]], [(0, 1), (2, 3)], 1⟩ : WData).getContext 1).toOption =
        specGetRowAmended ⟨[[0], [10], [20], [30]], [(0, 1), (2, 3)], 1⟩ 1 :=
  ⟨by decide, by decide,
    claim_C1 ⟨[[0], [10], [20], [30]], [(0, 1), (2, 3)], 1⟩ 1 (by decide) (by decide)⟩

/-- C2: for a covered row `i` at a segment's left edge (`i < start + w`, with
`i + w` still inside the segment and the segment inside the table),
`get_context(i)` is `w + start - i` copies of row `i` followed by the
physical rows `start .. i+w`, flattened; concretely, for the single-segment
table `[0,5)` with `w = 2`, `get_row(0)` has left pad 2, fetches rows
`[0,3)`, and equals rows 0, 0, 0, 1, 2 flattened. -/
theorem claim_C2 :
    (∀ (wd : WData) (i : Int) (e : Int × Int),
      wd.bounds.find? (fun e => covers e i) = some e →
      0 ≤ e.1 →
      i < e.1 + wd.window →
      i + wd.window < e.2 + 1 →
      e.2 + 1 ≤ (wd.data.length : Int) →
      wd.getContext i = .ok
        (pad (wd.data.getD i.toNat []) ((wd.window : Int) + e.1 - i).toNat ++
          (pySlice wd.data e.1 (i + wd.window + 1)).flatten)) ∧
    (⟨[[0], [10], [20], [30], [40]], [(0, 4)], 2⟩ : WData).getContext 0 =
      .ok [0, 0, 0, 10, 20] := by
  constructor
  · intro wd i e hfind hb0 hedge hinseg hsegn
    have hcov := List.find?_some hfind
    simp only [covers, Bool.and_eq_true, decide_eq_true_eq] at hcov
    obtain ⟨hle, hlt⟩ := hcov
    have hin : i < (wd.data.length : Int) := by omega
    rw [getContext_closed wd i e hfind hb0 hin]
    have hrp : (max 0 ((wd.window : Int) -
        min (e.2 + 1) ((wd.data.length : Int) - 1) + i)).toNat = 0 := by omega
    have hlp : (max ((wd.window : Int) + e.1 - i) 0).toNat =
        ((wd.window : Int) + e.1 - i).toNat := by omega
    rw [hrp, hlp]
    have hstart : i - (wd.window : Int) + (((wd.window : Int) + e.1 - i).toNat : Int) = e.1 := by
      omega
    rw [hstart]
    simp [pad]
  · rfl

/-- C2 witness: the general left-edge statement applied to row 1 of the
single-segment five-row table with half-window 2. -/
theorem claim_C2_witness :
    (⟨[[0], [10], [20], [30], [40]], [(0, 4)], 2⟩ : WData).getContext 1 =
      .ok (pad ((⟨[[0], [10], [20], [30], [40]], [(0, 4)], 2⟩ : WData).data.getD 1 [])
          ((2 : Int) + 0 - 1).toNat ++
        (pySlice (⟨[[0], [10], [20], [30], [40]], [(0, 4)], 2⟩ : WData).data 0
          (1 + 2 + 1)).flatten) :=
  claim_C2.1 ⟨[[0], [10], [20], [30], [40]], [(0, 4)], 2⟩ 1 (0, 4) rfl
    (by decide) (by decide) (by decide) (by decide)

/-- C3 counterexample: in a two-row table with the single segment `[0,2)`
and half-window 1, the window of row 0 extends past the segment's left
boundary, and `get_context(0)` returns rows 7, 7, 8 — the substituted pad
block equals row 0 — whereas the spec's zero-fill formula yields 0, 7, 8. -/
theorem claim_C3_counterexample :
    ((0 : Int) - 1 < 0) ∧
      (⟨[[7], [8]], [(0, 1)], 1⟩ : WData).getContext 0 = .ok [7, 7, 8] ∧
      specGetRowZero ⟨[[7], [8]], [(0, 1)], 1⟩ 0 = some [0, 7, 8] ∧
      ([7, 7, 8] : List Int) ≠ [0, 7, 8] :=
  ⟨by decide, rfl, rfl, by decide⟩

/-- C3 (amended): for every covered in-table row `i`, the rows substituted
outside the segment in the windowed output are copies of row `i` (the
current row), not zero-filled rows: the output is `left_pad` copies of
row `i`, then the fetched physical rows, then `right_pad` copies of
row `i`. -/
theorem claim_C3 (wd : WData) (i : Int) (e : Int × Int)
    (hfind : wd.bounds.find? (fun e => covers e i) = some e)
    (hb0 : 0 ≤ e.1)
    (hin : i < (wd.data.length : Int)) :
    ∃ mid, wd.getContext i = .ok
      (pad (wd.data.getD i.toNat [])
          (max ((wd.window : Int) + e.1 - i) 0).toNat ++
        mid ++
        pad (wd.data.getD i.toNat [])
          (max 0 ((wd.window : Int) -
            min (e.2 + 1) ((wd.data.length : Int) - 1) + i)).toNat) :=
  ⟨_, getContext_closed wd i e hfind hb0 hin⟩

/-- C3 witness: the amended padding statement applied to row 0 of the
two-row single-segment table. -/
theorem claim_C3_witness :
    ∃ mid, (⟨[[7], [8]], [(0, 1)], 1⟩ : WData).getContext 0 = .ok
      (pad ((⟨[[7], [8]], [(0, 1)], 1⟩ : WData).data.getD 0 [])
          (max ((1 : Int) + 0 - 0) 0).toNat ++
        mid ++
        pad ((⟨[[7], [8]], [(0, 1)], 1⟩ : WData).data.getD 0 [])
          (max 0 ((1 : Int) - min ((1 : Int) + 1) ((2 : Int) - 1) + 0)).toNat) :=
  claim_C3 ⟨[[7], [8]], [(0, 1)], 1⟩ 0 (0, 1) rfl (by decide) (by decide)

theorem vstack_ok (f : Int → Except PyErr (List Int)) (rows : List Int)
    (m : List (List Int)) (h : vstack f rows = .ok m) :
    comprehend f rows = .ok m := by
  unfold vstack at h
  cases hc : comprehend f rows with
  | error er => rw [hc, errBind] at h; cases h
  | ok m2 =>
    rw [hc, okBind] at h
    cases hm : m2.isEmpty with
    | true => rw [hm] at h; cases h
    | false =>
      rw [hm] at h
      simp only [Bool.false_eq_true, if_false] at h
      cases h
      rfl

theorem generateAll_getContext (wd : WData) (M : List (List Int))
    (h : wd.generateAll = .ok M) :
    M.length = wd.data.length ∧
      ∀ k : Nat, k < wd.data.length → wd.getContext k = .ok (M.getD k []) := by
  have hc : comprehend wd.getContext
      ((sliceIndices none none wd.data.length).map Int.ofNat) = .ok M :=
    vstack_ok _ _ _ h
  have hrows : (sliceIndices none none wd.data.length).map Int.ofNat =
      (List.range wd.data.length).map Int.ofNat := by
    simp [sliceIndices, List.range_eq_range']
  rw [hrows] at hc
  have hlen := comprehend_length _ _ _ hc
  simp only [List.length_map, List.length_range] at hlen
  refine ⟨hlen, fun k hk => ?_⟩
  have hget := comprehend_getD _ _ _ hc k (by simpa using hk)
  have hkd : ((List.range wd.data.length).map Int.ofNat).getD k 0 = (k : Int) := by
    rw [List.getD_eq_getElem _ _ (by simpa using hk)]
    simp
  rw [hkd] at hget
  exact hget

/-- C4: materialization is idempotent and observation-preserving.  If
`generate_all()` (as run by `__init__` with `process_all=True`) produces the
matrix `M` stored as the new base representation, then every subsequent
integer access `self[i]` returns exactly what `get_context(i)` returns on
the otherwise-identical non-materialized instance, and running
`generate_all` again on the materialized instance (`self[:]`, now a plain
numpy slice) returns the stored data unchanged. -/
theorem claim_C4 (wd : WData) (M : List (List Int)) (h : wd.generateAll = .ok M) :
    (∀ i : Nat, i < wd.data.length →
      getItem wd (some M) (.int i) = (wd.getContext i).map PyVal.vec) ∧
    getItem wd (some M) (.slice none none) = .ok (.mat M) := by
  obtain ⟨hlen, hget⟩ := generateAll_getContext wd M h
  constructor
  · intro i hi
    have hiM : (i : Int) < (M.length : Int) := by
      rw [hlen]; exact_mod_cast hi
    have hpg := pyGet_in M [] (i : Int) (by positivity) hiM
    simp only [getItem, npIndex, hpg, Except.map_ok, hget i hi]
    simp
  · simp only [getItem, npIndex, pySliceO]
    simp

/-- C4 witness: a concrete two-row table materializes to
`[[1,1,2],[1,2,2]]`, row access on the materialized instance matches
`get_context`, and re-materializing returns the stored matrix. -/
theorem claim_C4_witness :
    (⟨[[1], [2]], [(0, 1)], 1⟩ : WData).generateAll = .ok [[1, 1, 2], [1, 2, 2]] ∧
      getItem ⟨[[1], [2]], [(0, 1)], 1⟩ (some [[1, 1, 2], [1, 2, 2]]) (.int 0) =
        ((⟨[[1], [2]], [(0, 1)], 1⟩ : WData).getContext 0).map PyVal.vec ∧
      getItem ⟨[[1], [2]], [(0, 1)], 1⟩ (some [[1, 1, 2], [1, 2, 2]]) (.slice none none) =
        .ok (.mat [[1, 1, 2], [1, 2, 2]]) :=
  ⟨rfl,
    (claim_C4 ⟨[[1], [2]], [(0, 1)], 1⟩ [[1, 1, 2], [1, 2, 2]] rfl).1 0 (by decide),
    (claim_C4 ⟨[[1], [2]], [(0, 1)], 1⟩ [[1, 1, 2], [1, 2, 2]] rfl).2⟩

theorem generateScheme_decomp (ev : EV) (shuffles : Nat → List Nat) (st : EVSched)
    (hperm : ∀ k, (shuffles k).Perm (List.range ev.numExamples)) :
    ∃ ls : List (List Nat),
      (generateScheme ev shuffles st).schedule = some ls.flatten ∧
      ls.length = epochsOr1 ev.epochs ∧
      (∀ l ∈ ls, l.Perm (List.range ev.numExamples)) ∧
      ls.flatten.length = epochsOr1 ev.epochs * ev.numExamples := by
  refine ⟨(List.range (epochsOr1 ev.epochs)).map (fun j => shuffles (st.shuffleCount + j)),
    rfl, by simp, ?_, ?_⟩
  · intro l hl
    rcases List.mem_map.mp hl with ⟨j, _, rfl⟩
    exact hperm _
  · rw [List.length_flatten]
    have hrep : ((List.range (epochsOr1 ev.epochs)).map
        (fun j => shuffles (st.shuffleCount + j))).map List.length =
        List.replicate (epochsOr1 ev.epochs) ev.numExamples := by
      rw [List.eq_replicate_iff]
      constructor
      · simp
      · intro b hb
        simp only [List.map_map, List.mem_map, List.mem_range] at hb
        rcases hb with ⟨j, _, rfl⟩
        simpa using (hperm (st.shuffleCount + j)).length_eq
    rw [hrep, List.sum_replicate, smul_eq_mul]

/-- C5: for every dataset and `batch_size > 0`, assuming every shuffle
outcome is a permutation of `[0, num_examples)`: with `epochs = E ≥ 1` the
generated schedule is the concatenation of `max(E,1) = E` permutations of
`[0, num_examples)` and has length `E * num_examples`, and
`total_steps = ceil(num_examples/batch_size) * E`; with `epochs = None` the
schedule is a single permutation of length `num_examples` and
`total_steps = ceil(num_examples/batch_size)`. -/
theorem claim_C5 (ev : EV) (shuffles : Nat → List Nat) (st : EVSched)
    (hbs : 0 < ev.batchSize)
    (hperm : ∀ k, (shuffles k).Perm (List.range ev.numExamples)) :
    (∀ E, ev.epochs = some E → 1 ≤ E →
      ∃ sch, (generateScheme ev shuffles st).schedule = some sch ∧
        sch.length = E * ev.numExamples ∧
        (∃ ls : List (List Nat), sch = ls.flatten ∧ ls.length = max E 1 ∧
          ∀ l ∈ ls, l.Perm (List.range ev.numExamples)) ∧
        ev.T = ceilDiv ev.numExamples ev.batchSize * E) ∧
    (ev.epochs = none →
      ∃ sch, (generateScheme ev shuffles st).schedule = some sch ∧
        sch.length = ev.numExamples ∧
        (∃ ls : List (List Nat), sch = ls.flatten ∧ ls.length = 1 ∧
          ∀ l ∈ ls, l.Perm (List.range ev.numExamples)) ∧
        ev.T = ceilDiv ev.numExamples ev.batchSize) := by
  obtain ⟨ls, hsch, hlslen, hlsperm, hflatlen⟩ :=
    generateScheme_decomp ev shuffles st hperm
  constructor
  · intro E hE hE1
    have hor : epochsOr1 ev.epochs = E := by
      simp [epochsOr1, hE]
      omega
    refine ⟨ls.flatten, hsch, by rw [hflatlen, hor], ⟨ls, rfl, ?_, hlsperm⟩, ?_⟩
    · rw [hlslen, hor]
      omega
    · simp [EV.T, truthy, hE]
      intro h0
      omega
  · intro hE
    have hor : epochsOr1 ev.epochs = 1 := by simp [epochsOr1, hE]
    refine ⟨ls.flatten, hsch, by rw [hflatlen, hor, one_mul], ⟨ls, rfl, ?_, hlsperm⟩, ?_⟩
    · rw [hlslen, hor]
    · simp [EV.T, truthy, hE]

/-- C5 witness: the ten-example, batch-3, two-epoch instance has a schedule
of length 20 made of two permutations of `[0, 10)`, and `total_steps = 8`. -/
theorem claim_C5_witness :
    (0 < evA.batchSize) ∧
      (∃ sch, (generateScheme evA shufA ⟨none, 0⟩).schedule = some sch ∧
        sch.length = 2 * evA.numExamples ∧
        (∃ ls : List (List Nat), sch = ls.flatten ∧ ls.length = max 2 1 ∧
          ∀ l ∈ ls, l.Perm (List.range evA.numExamples)) ∧
        evA.T = ceilDiv evA.numExamples evA.batchSize * 2) :=
  ⟨by decide,
    (claim_C5 evA shufA ⟨none, 0⟩ (by decide)
      (fun _ => List.Perm.refl _)).1 2 rfl (by decide)⟩

/-- C6: for every step with `0 <= step < total_steps` on a state whose
schedule exists, the supplier selects exactly the row indices
`schedule[step*batch_size : min((step+1)*batch_size, len(schedule))]` and
leaves the state unchanged (the final batch may therefore be shorter than
`batch_size`); concretely, with `num_examples=10, batch_size=3, epochs=2`,
`total_steps` is 8, the schedule has length 20, and `batch_for_step(3)`
selects exactly the 3 elements at positions 9, 10, 11 of the concatenated
schedule. -/
theorem claim_C6 :
    (∀ (ev : EV) (shuffles : Nat → List Nat) (st : EVSched) (sch : List Nat) (s : Int)
        (res : EVSched × Batch),
      st.schedule = some sch → 0 ≤ s → s < (ev.T : Int) →
      trainingSupplier ev shuffles st (some s) = .ok res →
      res.1 = st ∧ res.2.nb = pySlice sch (s * ev.batchSize)
        (min ((s + 1) * ev.batchSize) (sch.length : Int))) ∧
    (evA.T = 8 ∧
      (generateScheme evA shufA ⟨none, 0⟩).schedule = some schedA ∧
      schedA.length = 20 ∧
      ∃ res, trainingSupplier evA shufA ⟨some schedA, 2⟩ (some 3) = .ok res ∧
        res.2.nb = (schedA.drop 9).take 3 ∧
        res.2.nb.length = 3) := by
  constructor
  · intro ev shuffles st sch s res hsch h0 hlt hok
    have hnge : ¬ ((ev.T : Int) ≤ s) := by omega
    simp only [trainingSupplier, hnge, if_false] at hok
    simp only [supplierCore, hsch, Option.isNone_some, Bool.false_eq_true, if_false,
      Option.getD_some] at hok
    generalize hG : pySlice sch (s * ev.batchSize)
      (min ((s + 1) * ev.batchSize) (sch.length : Int)) = NB at hok ⊢
    cases hbx : fetchRows ev.data NB with
    | error er => rw [hbx, errBind] at hok; cases hok
    | ok bx =>
      rw [hbx, okBind] at hok
      cases hby : fetchRows ev.target NB with
      | error er => rw [hby, errBind] at hok; cases hok
      | ok b2 =>
        rw [hby, okBind] at hok
        cases hok
        exact ⟨rfl, rfl⟩
  · exact ⟨rfl, rfl, rfl,
      ⟨(⟨some schedA, 2⟩, ⟨[9, 0, 1], [[9], [0], [1]], [[9], [0], [1]], false⟩),
        rfl, rfl, rfl⟩⟩

/-- C6 witness: the general slice statement applied at step 1 of the
concrete instance. -/
theorem claim_C6_witness :
    (⟨some schedA, 2⟩ : EVSched).schedule = some schedA ∧
      ∃ res, trainingSupplier evA shufA ⟨some schedA, 2⟩ (some 1) = .ok res ∧
        res.1 = (⟨some schedA, 2⟩ : EVSched) ∧
        res.2.nb = pySlice schedA (1 * evA.batchSize)
          (min ((1 + 1) * evA.batchSize) (schedA.length : Int)) :=
  ⟨rfl,
    ⟨(⟨some schedA, 2⟩, ⟨[3, 4, 5], [[3], [4], [5]], [[3], [4], [5]], false⟩), rfl,
      (claim_C6.1 evA shufA ⟨some schedA, 2⟩ schedA 1
        (⟨some schedA, 2⟩, ⟨[3, 4, 5], [[3], [4], [5]], [[3], [4], [5]], false⟩)
        rfl (by decide) (by decide) rfl).1,
      (claim_C6.1 evA shufA ⟨some schedA, 2⟩ schedA 1
        (⟨some schedA, 2⟩, ⟨[3, 4, 5], [[3], [4], [5]], [[3], [4], [5]], false⟩)
        rfl (by decide) (by decide) rfl).2⟩⟩

/-- C7: for every integer step at or past `total_steps` on a well-formed
scheduler (positive example count and batch size, permutation shuffles,
in-range schedule entries, matching target length), the supplier does not
fail: the warning is printed exactly when `step % total_steps == 0` and
`epochs` is truthy; when `step % total_steps == 0` the schedule is
regenerated with fresh permutations and the call behaves like the call at
the reduced step on the regenerated state; otherwise it behaves like the
call at the reduced step on the unchanged state — i.e. the step is always
reduced modulo `total_steps` before selecting the batch, so indefinite
stepping is supported. -/
theorem claim_C7 (ev : EV) (shuffles : Nat → List Nat) (st : EVSched) (s : Int)
    (hge : (ev.T : Int) ≤ s)
    (hn : 0 < ev.numExamples) (hbs : 0 < ev.batchSize)
    (hperm : ∀ k, (shuffles k).Perm (List.range ev.numExamples))
    (hsched : ∀ sch, st.schedule = some sch → ∀ i ∈ sch, i < ev.numExamples)
    (htar : ev.target.length = ev.data.length) :
    ∃ st' b, trainingSupplier ev shuffles st (some s) = .ok (st', b) ∧
      b.warned = (decide (s % (ev.T : Int) = 0) && truthy ev.epochs) ∧
      (s % (ev.T : Int) = 0 →
        st' = generateScheme ev shuffles st ∧
        trainingSupplier ev shuffles (generateScheme ev shuffles st)
          (some (s % (ev.T : Int))) = .ok (st', ⟨b.nb, b.bX, b.bY, false⟩)) ∧
      (s % (ev.T : Int) ≠ 0 →
        trainingSupplier ev shuffles st (some (s % (ev.T : Int))) =
          .ok (st', ⟨b.nb, b.bX, b.bY, false⟩)) := by
  have hT : 0 < ev.T := T_pos ev hn hbs
  have hTz : ev.T ≠ 0 := by omega
  have hTpos : (0 : Int) < (ev.T : Int) := by exact_mod_cast hT
  have hr0 : 0 ≤ s % (ev.T : Int) := Int.emod_nonneg s (by omega)
  have hrT : s % (ev.T : Int) < (ev.T : Int) := Int.emod_lt_of_pos s hTpos
  have hnger : ¬ ((ev.T : Int) ≤ s % (ev.T : Int)) := by omega
  by_cases hr : s % (ev.T : Int) = 0
  · obtain ⟨ST1, SCH, NB, hd, hsch1, hnb, hall⟩ :=
      supplierCore_ok ev shuffles (generateScheme ev shuffles st) (s % (ev.T : Int))
        hperm (generateScheme_entries ev shuffles st hperm) htar
    have hST1 : ST1 = generateScheme ev shuffles st := by
      rw [hd, generateScheme_schedule]
      rfl
    have hbeq : (s % (ev.T : Int) == 0) = true := by
      simp [hr]
    have hdec : decide (s % (ev.T : Int) = 0) = true := by simp [hr]
    refine ⟨ST1, ⟨NB, NB.map (fun i => ev.data.getD i []),
      NB.map (fun i => ev.target.getD i []),
      decide (s % (ev.T : Int) = 0) && truthy ev.epochs⟩, ?_, rfl, ?_, ?_⟩
    · simp only [trainingSupplier, hge, if_true, hTz, if_false, hbeq, Bool.true_and,
        if_pos rfl]
      rw [hdec, Bool.true_and]
      exact hall (truthy ev.epochs)
    · intro _
      refine ⟨hST1, ?_⟩
      simp only [trainingSupplier, hnger, if_false]
      exact hall false
    · intro hne
      exact absurd hr hne
  · obtain ⟨ST1, SCH, NB, hd, hsch1, hnb, hall⟩ :=
      supplierCore_ok ev shuffles st (s % (ev.T : Int)) hperm hsched htar
    have hbeq : (s % (ev.T : Int) == 0) = false := by
      simpa using hr
    have hdec : decide (s % (ev.T : Int) = 0) = false := by simpa using hr
    refine ⟨ST1, ⟨NB, NB.map (fun i => ev.data.getD i []),
      NB.map (fun i => ev.target.getD i []),
      decide (s % (ev.T : Int) = 0) && truthy ev.epochs⟩, ?_, rfl, ?_, ?_⟩
    · simp only [trainingSupplier, hge, if_true, hTz, if_false, hbeq, Bool.false_and,
        Bool.false_eq_true, if_false]
      rw [hdec, Bool.false_and]
      exact hall false
    · intro h0
      exact absurd h0 hr
    · intro _
      simp only [trainingSupplier, hnger, if_false]
      exact hall false

/-- C7 witness: calling the concrete ten-example scheduler at step 8 (with
`total_steps = 8`) succeeds, warns, and behaves as step 0 on the
regenerated state. -/
theorem claim_C7_witness :
    ((evA.T : Int) ≤ 8) ∧
      ∃ st' b, trainingSupplier evA shufA ⟨some schedA, 2⟩ (some 8) = .ok (st', b) ∧
        b.warned = (decide ((8 : Int) % (evA.T : Int) = 0) && truthy evA.epochs) ∧
        ((8 : Int) % (evA.T : Int) = 0 →
          st' = generateScheme evA shufA ⟨some schedA, 2⟩ ∧
          trainingSupplier evA shufA (generateScheme evA shufA ⟨some schedA, 2⟩)
            (some ((8 : Int) % (evA.T : Int))) = .ok (st', ⟨b.nb, b.bX, b.bY, false⟩)) ∧
        ((8 : Int) % (evA.T : Int) ≠ 0 →
          trainingSupplier evA shufA ⟨some schedA, 2⟩ (some ((8 : Int) % (evA.T : Int))) =
            .ok (st', ⟨b.nb, b.bX, b.bY, false⟩)) :=
  ⟨by decide,
    claim_C7 evA shufA ⟨some schedA, 2⟩ 8 (by decide) (by decide) (by decide)
      (fun _ => List.Perm.refl _)
      (fun sch h => by cases h; decide)
      (by decide)⟩

end RFHO
